import Mathlib

/-!
# Verification of the voice_denoiser engine core

Shallow embedding of `app/core/denoiser.py`, `app/core/stft_utils.py` and
`app/core/audio_io.py` over exact rational arithmetic.  External library
routines (scipy's Butterworth design + `filtfilt`, `iirnotch`, librosa's
`stft`/`istft`/`resample`/`effects.trim`, `np.fft.fft`, and the
`noisereduce` delegate) are opaque collaborators of the engine; the
embedding is parametric over them via the `Libs` record, while every piece
of logic written in the repository itself (cutoff resolution and clamping,
the notch-skip condition, noise-profile slicing and averaging, the
spectral-subtraction and Wiener formulas, the adaptive branching, the
noise-ratio heuristic, normalization and the `denoise` dispatcher) is
translated directly from the source.

Complex spectrogram entries are represented in polar form (`Polar`), which
is exactly the decomposition the source manipulates through
`get_magnitude_phase` / `combine_magnitude_phase`; a 2-D numpy array is a
`List (List _)` indexed `[frequency bin][time frame]`.
-/

namespace VoiceDenoiser

/-- One complex spectrogram entry in polar form `mag * exp(i * phase)`,
the decomposition used by `STFTUtils.get_magnitude_phase`. -/
structure Polar where
  mag : ℚ
  phase : ℚ
deriving DecidableEq

/-- The external library routines the engine calls, kept opaque.
`butter` is `scipy.signal.butter` composed with `filtfilt`
(arguments: order, normalized low cutoff, normalized high cutoff, signal);
`notch` is `scipy.signal.iirnotch` composed with `filtfilt`
(arguments: normalized center w0, quality factor, signal);
`stft`/`istft` are librosa's transforms (fft size, hop, signal) and
(hop, target length, frame); `fft` is `np.fft.fft` returning
(real, imaginary) pairs; `nr` is `noisereduce.reduce_noise`
(signal, sample rate, noise clip, stationary, prop_decrease, fft size, hop);
`resample` is `librosa.resample` (signal, orig sr, target sr);
`trim` is `librosa.effects.trim` (signal, top_db, frame_length, hop). -/
structure Libs where
  butter : ℕ → ℚ → ℚ → List ℚ → List ℚ
  notch : ℚ → ℚ → List ℚ → List ℚ
  stft : ℕ → ℕ → List ℚ → List (List Polar)
  istft : ℕ → ℕ → List (List Polar) → List ℚ
  fft : List ℚ → List (ℚ × ℚ)
  nr : List ℚ → ℕ → List ℚ → Bool → ℚ → ℕ → ℕ → List ℚ
  resample : List ℚ → ℕ → ℕ → List ℚ
  trim : List ℚ → ℚ → ℕ → ℕ → List ℚ

/-- Engine errors surfaced to the caller.  `invalidBand` carries the two
offending (already clamped) cutoffs, exactly the values interpolated into
the `ValueError` message of `Denoiser._bandpass_filter`; `unknownMethod`
is the `ValueError` of the `denoise` dispatcher. -/
inductive DenoiseError where
  | invalidBand (lowcut highcut : ℚ)
  | unknownMethod (method : String)
deriving DecidableEq

/-! ## audio_io.py -/

/-- `np.max(np.abs(audio))`: the peak absolute amplitude.  The base value
`0` is below every `|x|`, so on a non-empty buffer the fold returns the
true maximum. -/
def peak_amplitude (audio : List ℚ) : ℚ :=
  (audio.map (fun x => |x|)).foldr max 0

/-- `np.clip(x, -1.0, 1.0)` on one sample. -/
def clip1 (x : ℚ) : ℚ := min (max x (-1)) 1

/-- `AudioIO.normalize_audio`: return the empty buffer unchanged; compute
the peak; if it is positive, scale every sample by `target_level / peak`
and clip to `[-1, 1]`; otherwise return the buffer unchanged. -/
def normalize_audio (audio : List ℚ) (target_level : ℚ := 9/10) : List ℚ :=
  if audio.length = 0 then audio
  else
    let current_max := peak_amplitude audio
    if current_max > 0 then
      audio.map (fun x => clip1 (x * (target_level / current_max)))
    else audio

/-- Division that signals a zero divisor, mirroring the fact that
`target_level / current_max` is only ever evaluated under the
`current_max > 0` guard in `normalize_audio`. -/
def checked_div (a b : ℚ) : Option ℚ :=
  if b = 0 then none else some (a / b)

/-- `normalize_audio` with the one division routed through `checked_div`:
it returns `none` exactly when a division by zero would occur. -/
def normalize_audio_checked (audio : List ℚ) (target_level : ℚ := 9/10) :
    Option (List ℚ) :=
  if audio.length = 0 then some audio
  else
    let current_max := peak_amplitude audio
    if current_max > 0 then
      (checked_div target_level current_max).map
        (fun norm_factor => audio.map (fun x => clip1 (x * norm_factor)))
    else some audio

/-- `AudioIO.resample_audio`: identity when the rates agree, otherwise the
librosa resampler. -/
def resample_audio (l : Libs) (audio : List ℚ) (orig_sr target_sr : ℕ) :
    List ℚ :=
  if orig_sr = target_sr then audio else l.resample audio orig_sr target_sr

/-- `AudioIO.trim_silence`: delegates to `librosa.effects.trim`; note the
`sr` parameter is accepted but not forwarded, exactly as in the source. -/
def trim_silence (l : Libs) (audio : List ℚ) (_sr : ℕ) (top_db : ℚ := 30)
    (frame_length : ℕ := 2048) (hop_length : ℕ := 512) : List ℚ :=
  l.trim audio top_db frame_length hop_length

/-! ## stft_utils.py -/

/-- `STFTUtils.get_magnitude_phase`: split a complex spectrogram into its
magnitude and phase matrices. -/
def get_magnitude_phase (S : List (List Polar)) :
    List (List ℚ) × List (List ℚ) :=
  (S.map (fun row => row.map Polar.mag),
   S.map (fun row => row.map Polar.phase))

/-- `STFTUtils.combine_magnitude_phase`: rebuild `magnitude * e^(i*phase)`
from a magnitude matrix and a phase matrix. -/
def combine_magnitude_phase (M P : List (List ℚ)) : List (List Polar) :=
  M.zipWith (fun rm rp => rm.zipWith Polar.mk rp) P

/-- numpy shape of a rectangular 2-D array value `[rows, cols]`. -/
def matShape (m : List (List ℚ)) : List ℕ :=
  [m.length, (m.headD []).length]

/-- `STFTUtils.estimate_noise_profile`: slice the leading
`int(noise_duration * sr)` samples (the whole buffer when it is not
longer than that), run the spectral transform, and average the magnitude
across time frames per bin with `np.mean(..., axis=1, keepdims=True)` —
each row of the result is the singleton `[mean of that bin's magnitudes]`,
so the returned array has numpy shape `(bins, 1)`. -/
def estimate_noise_profile (stftF : ℕ → ℕ → List ℚ → List (List Polar))
    (audio : List ℚ) (sr : ℕ) (noise_duration : ℚ := 1/2)
    (n_fft : ℕ := 2048) (hop_length : ℕ := 512) : List (List ℚ) :=
  let noise_samples : ℕ := (⌊noise_duration * (sr : ℚ)⌋).toNat
  let noise_segment :=
    if noise_samples ≥ audio.length then audio else audio.take noise_samples
  let noise_stft := stftF n_fft hop_length noise_segment
  noise_stft.map
    (fun row => [((row.map Polar.mag).sum) / (row.length : ℚ)])

/-- The magnitude update of `STFTUtils.spectral_subtraction`:
`np.maximum(magnitude - over_subtraction * noise_profile, spectral_floor *
magnitude)`, where `noise_profile` is the `(bins, 1)` column produced by
`estimate_noise_profile`, broadcast along the time axis. -/
def clean_magnitude (magnitude : List (List ℚ))
    (noise_profile : List (List ℚ)) (over_subtraction spectral_floor : ℚ) :
    List (List ℚ) :=
  (magnitude.zip noise_profile).map
    (fun rp => rp.1.map
      (fun m => max (m - over_subtraction * rp.2.headD 0)
                    (spectral_floor * m)))

/-- `STFTUtils.spectral_subtraction`: split magnitude/phase, apply the
floored subtraction to the magnitude, recombine with the untouched
phase. -/
def spectral_subtraction (stft_matrix : List (List Polar))
    (noise_profile : List (List ℚ)) (over_subtraction : ℚ := 3/2)
    (spectral_floor : ℚ := 1/100) : List (List Polar) :=
  let mp := get_magnitude_phase stft_matrix
  combine_magnitude_phase
    (clean_magnitude mp.1 noise_profile over_subtraction spectral_floor)
    mp.2

/-! ## denoiser.py -/

/-- `Denoiser.SPEECH_FREQ_RANGES` with the `.get(voice_type, broadband)`
default of `_bandpass_filter`. -/
def speech_freq_range (voice_type : String) : ℚ × ℚ :=
  if voice_type = "male" then (80, 8000)
  else if voice_type = "female" then (100, 10000)
  else (50, 12000)

/-- `Denoiser._notch_filter`: normalize the center frequency to
`w0 = freq / (sr / 2)` and apply the library notch (iirnotch + filtfilt). -/
def notch_filter (l : Libs) (audio : List ℚ) (sr : ℕ) (freq : ℚ := 50)
    (Q : ℚ := 30) : List ℚ :=
  let w0 := freq / ((sr : ℚ) / 2)
  l.notch w0 Q audio

/-- `Denoiser._bandpass_filter`: resolve missing cutoffs from the voice
profile, clamp both cutoffs to `min(cutoff, sr/2 - 1)`, raise
`InvalidBand` (carrying both clamped values) when the clamped low cutoff
is not below the clamped high cutoff, otherwise run the zero-phase
Butterworth band-pass on the normalized cutoffs and then the 50 Hz notch —
unless one of the clamped cutoffs lies in `[45, 55]`, in which case the
notch stage is skipped. -/
def bandpass_filter (l : Libs) (audio : List ℚ) (sr : ℕ)
    (lowcut0 : Option ℚ := none) (highcut0 : Option ℚ := none)
    (order : ℕ := 5) (voice_type : String := "broadband") :
    Except DenoiseError (List ℚ) :=
  let freq_range := speech_freq_range voice_type
  let nyquist : ℚ := (sr : ℚ) / 2
  let lowcut := min (lowcut0.getD freq_range.1) (nyquist - 1)
  let highcut := min (highcut0.getD freq_range.2) (nyquist - 1)
  if lowcut ≥ highcut then .error (.invalidBand lowcut highcut)
  else
    let low := lowcut / nyquist
    let high := highcut / nyquist
    let audio_filtered := l.butter order low high audio
    if (45 ≤ lowcut ∧ lowcut ≤ 55) ∨ (45 ≤ highcut ∧ highcut ≤ 55) then
      .ok audio_filtered
    else
      .ok (notch_filter l audio_filtered sr 50 30)

/-- `Denoiser._spectral_subtraction`: estimate the noise profile from the
leading `noise_duration` seconds, transform, subtract, inverse-transform
back to the input length. -/
def spectral_subtraction_method (l : Libs) (audio : List ℚ) (sr : ℕ)
    (n_fft : ℕ := 2048) (hop_length : ℕ := 512)
    (over_subtraction : ℚ := 3/2) (spectral_floor : ℚ := 1/100)
    (noise_duration : ℚ := 1/2) : List ℚ :=
  let noise_profile :=
    estimate_noise_profile l.stft audio sr noise_duration n_fft hop_length
  let stft_matrix := l.stft n_fft hop_length audio
  let stft_clean :=
    spectral_subtraction stft_matrix noise_profile over_subtraction
      spectral_floor
  l.istft hop_length audio.length stft_clean

/-- `1e-10`, the division guard of `Denoiser._wiener_filter`. -/
def wiener_eps : ℚ := 1 / 10000000000

/-- The noise power spectral density of `Denoiser._wiener_filter`: the
per-bin mean of `|stft|^2` over the first `noise_frames` frames when the
signal has more frames than that, else over all frames.  A polar entry
`m * e^(i*phase)` has `|.|^2 = m^2`. -/
def wiener_noise_psd (S : List (List Polar)) (noise_frames numFrames : ℕ) :
    List ℚ :=
  S.map (fun row =>
    let sel := if noise_frames < numFrames then row.take noise_frames else row
    ((sel.map (fun p => p.mag ^ 2)).sum) / (sel.length : ℚ))

/-- `np.maximum(magnitude ** 2 - noise_psd[:, np.newaxis], 0)`. -/
def signal_psd_est (magnitude : List (List ℚ)) (noise_psd : List ℚ) :
    List (List ℚ) :=
  (magnitude.zip noise_psd).map
    (fun rp => rp.1.map (fun m => max (m ^ 2 - rp.2) 0))

/-- `signal_psd_est / (noise_psd[:, np.newaxis] + 1e-10)`. -/
def prior_snr (spe : List (List ℚ)) (noise_psd : List ℚ) :
    List (List ℚ) :=
  (spe.zip noise_psd).map
    (fun rp => rp.1.map (fun s => s / (rp.2 + wiener_eps)))

/-- `prior_snr / (prior_snr + 1)`, the Wiener weights. -/
def wiener_weights (pr : List (List ℚ)) : List (List ℚ) :=
  pr.map (fun row => row.map (fun p => p / (p + 1)))

/-- Elementwise product `magnitude * wiener_weights`. -/
def mat_mul_elem (a b : List (List ℚ)) : List (List ℚ) :=
  a.zipWith (fun r1 r2 => r1.zipWith (fun x y => x * y) r2) b

/-- The spectral stage of `Denoiser._wiener_filter` (everything between
the forward and the inverse transform): estimate the noise PSD from the
first `int(0.5 * sr / hop_length)` frames, form the Wiener weights and
apply them to the magnitudes, keeping the phase. -/
def wiener_clean_frame (S : List (List Polar)) (sr hop_length : ℕ) :
    List (List Polar) :=
  let mp := get_magnitude_phase S
  let noise_frames := sr / (2 * hop_length)
  let numFrames := (mp.1.headD []).length
  let noise_psd := wiener_noise_psd S noise_frames numFrames
  let weights := wiener_weights (prior_snr (signal_psd_est mp.1 noise_psd)
    noise_psd)
  combine_magnitude_phase (mat_mul_elem mp.1 weights) mp.2

/-- `Denoiser._wiener_filter`: transform, apply the Wiener spectral stage,
inverse-transform to the input length.  The `smoothing` parameter is
accepted and unused, as in the source. -/
def wiener_filter (l : Libs) (audio : List ℚ) (sr : ℕ)
    (n_fft : ℕ := 2048) (hop_length : ℕ := 512) (_smoothing : ℚ := 49/50) :
    List ℚ :=
  let stft_matrix := l.stft n_fft hop_length audio
  let stft_clean := wiener_clean_frame stft_matrix sr hop_length
  l.istft hop_length audio.length stft_clean

/-- `Denoiser._noisereduce_filter`: hand the signal, together with its
leading `int(0.5 * sr)` samples as the noise clip, to the opaque
noisereduce delegate. -/
def noisereduce_filter (l : Libs) (audio : List ℚ) (sr : ℕ)
    (stationary : Bool := false) (prop_decrease : ℚ := 9/10)
    (n_fft : ℕ := 2048) (hop_length : ℕ := 512) : List ℚ :=
  let noise_clip := audio.take (sr / 2)
  l.nr audio sr noise_clip stationary prop_decrease n_fft hop_length

/-- Squared modulus of one `np.fft.fft` output value. -/
def cabs_sq (z : ℚ × ℚ) : ℚ := z.1 ^ 2 + z.2 ^ 2

/-- `|np.fft.fftfreq(n)[i]|`: the absolute normalized frequency of bin `i`
of an `n`-point FFT, which equals `min(i, n - i) / n`. -/
def fftfreq_abs (n i : ℕ) : ℚ := ((min i (n - i) : ℕ) : ℚ) / (n : ℚ)

/-- `np.sum(np.abs(fft_result) ** 2)`: total spectral power. -/
def power_total (F : List (ℚ × ℚ)) : ℚ := (F.map cabs_sq).sum

/-- `np.sum(np.abs(fft_result[mask_high]) ** 2)`: power in the bins whose
absolute normalized frequency exceeds 0.3, the mask being built from
`np.fft.fftfreq(n)` with `n` the signal length. -/
def power_high (n : ℕ) (F : List (ℚ × ℚ)) : ℚ :=
  (((F.enum).filter (fun p => fftfreq_abs n p.1 > 3/10)).map
    (fun p => cabs_sq p.2)).sum

/-- `Denoiser._estimate_noise_level`: the ratio of high-frequency power to
total power of the full-signal FFT, `0` when the total power is not
positive, clamped to at most `1`. -/
def estimate_noise_level (fftF : List ℚ → List (ℚ × ℚ))
    (audio : List ℚ) : ℚ :=
  let fft_result := fftF audio
  let n := audio.length
  let pt := power_total fft_result
  let ph := power_high n fft_result
  let noise_ratio := if pt > 0 then ph / pt else 0
  min noise_ratio 1

/-- `Denoiser._adaptive_denoise`: broadband band-pass pre-filter, then the
noise-level heuristic on the pre-filtered signal, then: below 0.05 return
the pre-filtered signal; below 0.15 spectral subtraction of it; otherwise
spectral subtraction followed by the noisereduce delegate. -/
def adaptive_denoise (l : Libs) (audio : List ℚ) (sr : ℕ) :
    Except DenoiseError (List ℚ) :=
  (bandpass_filter l audio sr none none 5 "broadband").bind
    (fun audio_stage1 =>
      let noise_level := estimate_noise_level l.fft audio_stage1
      if noise_level < 1/20 then .ok audio_stage1
      else if noise_level < 3/20 then
        .ok (spectral_subtraction_method l audio_stage1 sr)
      else
        .ok (noisereduce_filter l
          (spectral_subtraction_method l audio_stage1 sr) sr))

/-- The output record of `Denoiser.denoise` (the wall-clock
`processing_time` field is not modelled; a 1-D numpy shape is its
length). -/
structure DenoiseResult where
  audio : List ℚ
  sample_rate : ℕ
  method : String
  original_shape : ℕ
  denoised_shape : ℕ
deriving DecidableEq

/-- The method dispatch of `Denoiser.denoise` (each method at the call's
default keyword arguments). -/
def dispatch_method (l : Libs) (method : String) (audio : List ℚ)
    (sr : ℕ) : Except DenoiseError (List ℚ) :=
  if method = "bandpass" then bandpass_filter l audio sr
  else if method = "spectral_subtraction" then
    .ok (spectral_subtraction_method l audio sr)
  else if method = "wiener" then .ok (wiener_filter l audio sr)
  else if method = "noisereduce" then .ok (noisereduce_filter l audio sr)
  else if method = "adaptive" then adaptive_denoise l audio sr
  else .error (.unknownMethod method)

/-- `Denoiser.denoise` on the sample-array input branch: default the
method and the sample rate, resample to `target_sr` when the caller's
rate differs (after which `orig_sr` is set to `target_sr`), record the
(post-resample) original shape, dispatch the method, then normalize, trim
silence, and assemble the result record whose `sample_rate` is
`orig_sr`. -/
def denoise (l : Libs) (target_sr : ℕ) (default_method : String)
    (audio : List ℚ) (sr : Option ℕ) (method0 : Option String) :
    Except DenoiseError DenoiseResult :=
  let method := method0.getD default_method
  let sr0 := sr.getD target_sr
  let audio_data :=
    if sr0 ≠ target_sr then resample_audio l audio sr0 target_sr else audio
  let orig_sr := if sr0 ≠ target_sr then target_sr else sr0
  let original_shape := audio_data.length
  (dispatch_method l method audio_data orig_sr).bind
    (fun denoised0 =>
      let denoised1 := normalize_audio denoised0
      let denoised2 := trim_silence l denoised1 orig_sr
      .ok { audio := denoised2, sample_rate := orig_sr, method := method,
            original_shape := original_shape,
            denoised_shape := denoised2.length })

/-- The noise-ratio heuristic as the claim words it: the ratio of power at
normalized absolute frequency above 0.3 to total power, clamped to at most
1, and 0 when the total power is 0.  Stated independently of
`estimate_noise_level` so that the refinement below is meaningful. -/
def noise_ratio_spec (fftF : List ℚ → List (ℚ × ℚ)) (audio : List ℚ) :
    ℚ :=
  let F := fftF audio
  let total := power_total F
  let high := power_high audio.length F
  if total = 0 then 0 else min (high / total) 1

/-- The three-way decision of `_adaptive_denoise` as a function of the
noise level alone: `0` for the low branch (below 0.05), `1` for the medium
branch (below 0.15), `2` for the high branch. -/
def adaptive_branch (noise_level : ℚ) : ℕ :=
  if noise_level < 1/20 then 0 else if noise_level < 3/20 then 1 else 2

/-! ## Concrete library instantiation used by the witnesses

`stub` is one concrete, executable `Libs` record: the filters return their
input (the notch prepends a marker sample so that its application is
observable), the transforms return the empty spectrogram, the FFT embeds
the signal on the real line. -/

def stub : Libs where
  butter := fun _ _ _ x => x
  notch := fun _ _ x => 0 :: x
  stft := fun _ _ _ => []
  istft := fun _ _ _ => []
  fft := fun a => a.map (fun q => (q, 0))
  nr := fun y _ _ _ _ _ _ => y
  resample := fun a _ _ => a
  trim := fun a _ _ _ => a

/-! ## Helper lemmas on list indexing and folds -/

theorem getD_map_lt {α β : Type} (f : α → β) (l : List α) (i : ℕ)
    (hi : i < l.length) (d : β) (e : α) :
    (l.map f).getD i d = f (l.getD i e) := by
  induction l generalizing i with
  | nil => simp at hi
  | cons a t ih =>
    cases i with
    | zero => rfl
    | succ n => simpa using ih n (by simpa using hi)

theorem getD_zip_lt {α β : Type} (l1 : List α) (l2 : List β) (i : ℕ)
    (h1 : i < l1.length) (h2 : i < l2.length) (d : α × β) :
    (l1.zip l2).getD i d = (l1.getD i d.1, l2.getD i d.2) := by
  induction l1 generalizing l2 i with
  | nil => simp at h1
  | cons a t ih =>
    cases l2 with
    | nil => simp at h2
    | cons b u =>
      cases i with
      | zero => rfl
      | succ n =>
        simpa using ih u n (by simpa using h1) (by simpa using h2)

theorem getD_zipWith_lt {α β γ : Type} (f : α → β → γ) (l1 : List α)
    (l2 : List β) (i : ℕ) (h1 : i < l1.length) (h2 : i < l2.length)
    (d : γ) (e1 : α) (e2 : β) :
    (l1.zipWith f l2).getD i d = f (l1.getD i e1) (l2.getD i e2) := by
  induction l1 generalizing l2 i with
  | nil => simp at h1
  | cons a t ih =>
    cases l2 with
    | nil => simp at h2
    | cons b u =>
      cases i with
      | zero => rfl
      | succ n =>
        simpa using ih u n (by simpa using h1) (by simpa using h2)

theorem le_foldr_max (l : List ℚ) (x : ℚ) (hx : x ∈ l) (b : ℚ) :
    x ≤ l.foldr max b := by
  induction l with
  | nil => simp at hx
  | cons a t ih =>
    rcases List.mem_cons.mp hx with h | h
    · simp only [h, List.foldr_cons]
      exact le_max_left a (t.foldr max b)
    · exact le_trans (ih h) (le_max_right a (t.foldr max b))

theorem foldr_max_le (l : List ℚ) (b c : ℚ) (hb : b ≤ c)
    (hl : ∀ x ∈ l, x ≤ c) : l.foldr max b ≤ c := by
  induction l with
  | nil => simpa using hb
  | cons a t ih =>
    have ha : a ≤ c := hl a (List.mem_cons_self a t)
    have ht : t.foldr max b ≤ c := ih (fun x hx => hl x (List.mem_cons_of_mem a hx))
    simpa using max_le ha ht

theorem peak_amplitude_nonneg (audio : List ℚ) :
    0 ≤ peak_amplitude audio := by
  unfold peak_amplitude
  induction audio with
  | nil => simp
  | cons a t ih =>
    exact le_trans ih (by simp only [List.map_cons, List.foldr_cons]
                          exact le_max_right |a| _)

theorem abs_le_peak_amplitude (audio : List ℚ) (x : ℚ) (hx : x ∈ audio) :
    |x| ≤ peak_amplitude audio :=
  le_foldr_max _ _ (List.mem_map_of_mem _ hx) 0

theorem sum_nonneg_of_mem (l : List ℚ) (h : ∀ x ∈ l, 0 ≤ x) :
    0 ≤ l.sum := by
  induction l with
  | nil => simp
  | cons a t ih =>
    have := h a (List.mem_cons_self a t)
    have := ih (fun x hx => h x (List.mem_cons_of_mem a hx))
    simp only [List.sum_cons]
    linarith

/-! ## Claim C2 -/

/-- Claim C2: in `_bandpass_filter` both cutoffs are first clamped to
`min(cutoff, sr/2 - 1)`; the call raises `InvalidBand` if and only if the
clamped low cutoff is at least the clamped high cutoff, the error carries
both clamped values, and in the error case no filtering happens — the
result does not depend on the filter routines at all; in particular
`lowcut=9000, highcut=8000` at sample rate 16000 raises
`InvalidBand(7999, 7999)`. -/
theorem C2_clamp_and_invalid_band (l : Libs) (audio : List ℚ) (sr : ℕ)
    (lowcut highcut : ℚ) (order : ℕ) (voice_type : String) :
    (bandpass_filter l audio sr (some lowcut) (some highcut) order
        voice_type =
      .error (.invalidBand (min lowcut ((sr : ℚ)/2 - 1))
        (min highcut ((sr : ℚ)/2 - 1))) ↔
      min lowcut ((sr : ℚ)/2 - 1) ≥ min highcut ((sr : ℚ)/2 - 1)) ∧
    (min lowcut ((sr : ℚ)/2 - 1) ≥ min highcut ((sr : ℚ)/2 - 1) →
      ∀ l2 : Libs,
        bandpass_filter l audio sr (some lowcut) (some highcut) order
          voice_type =
        bandpass_filter l2 audio sr (some lowcut) (some highcut) order
          voice_type) ∧
    bandpass_filter l audio 16000 (some 9000) (some 8000) order voice_type =
      .error (.invalidBand 7999 7999) := by
  refine ⟨?_, ?_, ?_⟩
  · by_cases hcl :
      min lowcut ((sr : ℚ)/2 - 1) ≥ min highcut ((sr : ℚ)/2 - 1)
    · simp only [bandpass_filter, Option.getD_some, if_pos hcl]
      exact ⟨fun _ => hcl, fun _ => trivial⟩
    · simp only [bandpass_filter, Option.getD_some, if_neg hcl]
      by_cases hn : (45 ≤ min lowcut ((sr : ℚ)/2 - 1) ∧
          min lowcut ((sr : ℚ)/2 - 1) ≤ 55) ∨
          (45 ≤ min highcut ((sr : ℚ)/2 - 1) ∧
          min highcut ((sr : ℚ)/2 - 1) ≤ 55)
      · rw [if_pos hn]
        simp only [reduceCtorEq, false_iff]
        exact hcl
      · rw [if_neg hn]
        simp only [reduceCtorEq, false_iff]
        exact hcl
  · intro hcl l2
    simp only [bandpass_filter, Option.getD_some, if_pos hcl]
  · simp only [bandpass_filter, Option.getD_some]
    norm_num

/-- Witness for C2 at `lowcut=9000, highcut=8000, sr=16000`: the clamped
cutoffs coincide at 7999 and the call errors with both values. -/
theorem C2_clamp_and_invalid_band_witness :
    min (9000 : ℚ) (((16000 : ℕ) : ℚ)/2 - 1) ≥
      min (8000 : ℚ) (((16000 : ℕ) : ℚ)/2 - 1) ∧
    bandpass_filter stub [1] 16000 (some 9000) (some 8000) 5 "broadband" =
      .error (.invalidBand 7999 7999) := by
  refine ⟨by norm_num, ?_⟩
  have h :=
    (C2_clamp_and_invalid_band stub [1] 16000 9000 8000 5 "broadband").1.mpr
      (by norm_num)
  norm_num at h
  exact h

/-! ## Claim C1 -/

/-- Counterexample to claim C1 as stated.  At `lowcut=40, highcut=8000`,
sample rate 16000, the clamped pass-band is `[40, 7999]`, which overlaps
the 45–55 Hz region (40 ≤ 55 and 45 ≤ 7999), so the claim says the notch
stage is skipped and the result is the band-passed signal alone.  With a
library instance whose band-pass is the identity and whose notch prepends
a `0` marker sample, the band-passed signal is `[1]`, yet the code returns
`[0, 1]`: the notch stage ran although the band overlaps 45–55 Hz, because
the source only skips the notch when one of the two cutoffs itself lies in
`[45, 55]`. -/
theorem C1_counterexample :
    (min (40 : ℚ) (((16000 : ℕ) : ℚ)/2 - 1) ≤ 55 ∧
      (45 : ℚ) ≤ min (8000 : ℚ) (((16000 : ℕ) : ℚ)/2 - 1)) ∧
    stub.butter 5 ((40 : ℚ)/8000) ((7999 : ℚ)/8000) [1] = [1] ∧
    bandpass_filter stub [1] 16000 (some 40) (some 8000) 5 "broadband" =
      .ok [0, 1] ∧
    ([0, 1] : List ℚ) ≠ [1] := by
  refine ⟨⟨by norm_num, by norm_num⟩, rfl, ?_, by simp⟩
  simp only [bandpass_filter, Option.getD_some, notch_filter, stub]
  norm_num

/-- Claim C1 amended: after clamping, the 50 Hz notch stage is skipped if
and only if one of the two clamped cutoffs lies in `[45, 55]` (not: if and
only if the pass-band overlaps the 45–55 Hz region); when no clamped
cutoff lies in `[45, 55]`, the notch runs after the Butterworth band-pass,
and when one does, the result is the band-passed signal alone. -/
theorem C1_notch_skip_condition (l : Libs) (audio : List ℚ) (sr : ℕ)
    (lowcut highcut : ℚ) (order : ℕ) (voice_type : String)
    (h : min lowcut ((sr : ℚ)/2 - 1) < min highcut ((sr : ℚ)/2 - 1)) :
    bandpass_filter l audio sr (some lowcut) (some highcut) order
        voice_type =
      .ok (if (45 ≤ min lowcut ((sr : ℚ)/2 - 1) ∧
                min lowcut ((sr : ℚ)/2 - 1) ≤ 55) ∨
              (45 ≤ min highcut ((sr : ℚ)/2 - 1) ∧
                min highcut ((sr : ℚ)/2 - 1) ≤ 55)
           then l.butter order
             (min lowcut ((sr : ℚ)/2 - 1) / ((sr : ℚ)/2))
             (min highcut ((sr : ℚ)/2 - 1) / ((sr : ℚ)/2)) audio
           else notch_filter l
             (l.butter order
               (min lowcut ((sr : ℚ)/2 - 1) / ((sr : ℚ)/2))
               (min highcut ((sr : ℚ)/2 - 1) / ((sr : ℚ)/2)) audio)
             sr 50 30) := by
  simp only [bandpass_filter, Option.getD_some, if_neg (not_le.mpr h)]
  by_cases hn : (45 ≤ min lowcut ((sr : ℚ)/2 - 1) ∧
      min lowcut ((sr : ℚ)/2 - 1) ≤ 55) ∨
      (45 ≤ min highcut ((sr : ℚ)/2 - 1) ∧
      min highcut ((sr : ℚ)/2 - 1) ≤ 55)
  · rw [if_pos hn, if_pos hn]
  · rw [if_neg hn, if_neg hn]

/-- Witness for the amended C1, on both sides of the condition: at
cutoffs `(50, 12000)` the clamped low cutoff 50 lies in `[45, 55]` and the
notch is skipped (band-pass output `[1]`); at cutoffs `(40, 8000)` neither
clamped cutoff lies in `[45, 55]` and the notch runs (output `[0, 1]`). -/
theorem C1_notch_skip_condition_witness :
    bandpass_filter stub [1] 16000 (some 50) (some 12000) 5 "broadband" =
      .ok [1] ∧
    bandpass_filter stub [1] 16000 (some 40) (some 8000) 5 "broadband" =
      .ok [0, 1] := by
  constructor
  · have h :=
      C1_notch_skip_condition stub [1] 16000 50 12000 5 "broadband"
        (by norm_num)
    rw [h, if_pos (by norm_num)]
    rfl
  · have h :=
      C1_notch_skip_condition stub [1] 16000 40 8000 5 "broadband"
        (by norm_num)
    rw [h, if_neg (by norm_num)]
    simp only [stub, notch_filter]

/-! ## Claims C7 and C10 -/

theorem peak_amplitude_of_zeros (audio : List ℚ)
    (h : ∀ x ∈ audio, x = 0) : peak_amplitude audio = 0 := by
  refine le_antisymm ?_ (peak_amplitude_nonneg audio)
  refine foldr_max_le _ 0 0 le_rfl ?_
  intro y hy
  rcases List.mem_map.mp hy with ⟨x, hx, rfl⟩
  rw [h x hx]
  simp

/-- Claim C7: normalization is a no-op on every non-empty buffer whose
peak already equals the default target level 0.9, and for every buffer and
target level each sample of the normalized output lies in `[-1, 1]`. -/
theorem C7_normalize_idempotent_and_clipped :
    (∀ audio : List ℚ, audio ≠ [] → peak_amplitude audio = 9/10 →
      normalize_audio audio (9/10) = audio) ∧
    (∀ (audio : List ℚ) (target x : ℚ), x ∈ normalize_audio audio target →
      -1 ≤ x ∧ x ≤ 1) := by
  constructor
  · intro audio hne hp
    have hlen : ¬ audio.length = 0 := by
      simpa [List.length_eq_zero] using hne
    have hpos : peak_amplitude audio > 0 := by rw [hp]; norm_num
    simp only [normalize_audio, hlen, if_false, hp, hpos, if_true,
      show ((9 : ℚ)/10 > 0) = True from by norm_num]
    rw [div_self (by norm_num : (9 : ℚ)/10 ≠ 0)]
    have hfix : ∀ x ∈ audio, clip1 (x * 1) = x := by
      intro x hx
      have h1 : |x| ≤ 9/10 := hp ▸ abs_le_peak_amplitude audio x hx
      rcases abs_le.mp h1 with ⟨hlo, hhi⟩
      unfold clip1
      rw [mul_one, max_eq_left (by linarith), min_eq_left (by linarith)]
    rw [List.map_congr_left hfix]
    exact List.map_id audio
  · intro audio target x hx
    by_cases hlen : audio.length = 0
    · rw [List.length_eq_zero] at hlen
      subst hlen
      simp [normalize_audio] at hx
    · by_cases hpos : peak_amplitude audio > 0
      · simp only [normalize_audio, hlen, if_false, hpos, if_true] at hx
        rcases List.mem_map.mp hx with ⟨y, _, rfl⟩
        unfold clip1
        constructor
        · exact le_min (le_max_right _ _) (by norm_num)
        · exact min_le_right _ _
      · simp only [normalize_audio, hlen, if_false, hpos, if_true] at hx
        have h1 : |x| ≤ peak_amplitude audio :=
          abs_le_peak_amplitude audio x hx
        have h0 : peak_amplitude audio ≤ 0 := le_of_not_lt hpos
        have : |x| ≤ 0 := le_trans h1 h0
        have hx0 : x = 0 := abs_nonpos_iff.mp this
        rw [hx0]
        norm_num

/-- Witness for C7: the one-sample buffer `[0.9]` has peak 0.9; the
theorem yields that normalizing it is the identity and that the remaining
sample lies in `[-1, 1]`. -/
theorem C7_normalize_idempotent_and_clipped_witness :
    normalize_audio [9/10] (9/10) = [9/10] ∧
    (-1 ≤ (9 : ℚ)/10 ∧ (9 : ℚ)/10 ≤ 1) := by
  have hp : peak_amplitude [(9 : ℚ)/10] = 9/10 := by
    simp only [peak_amplitude, List.map_cons, List.map_nil,
      List.foldr_cons, List.foldr_nil]
    norm_num [abs_of_pos]
  have h1 := C7_normalize_idempotent_and_clipped.1 [9/10] (by simp) hp
  refine ⟨h1, ?_⟩
  refine C7_normalize_idempotent_and_clipped.2 [9/10] (9/10) ((9 : ℚ)/10) ?_
  rw [h1]
  simp

/-- Claim C10: normalization is total on degenerate inputs — the empty
buffer and every all-zero buffer come back unchanged, and running the
normalizer with its one division checked never hits a zero divisor. -/
theorem C10_normalize_degenerate :
    (∀ target : ℚ, normalize_audio [] target = []) ∧
    (∀ (audio : List ℚ) (target : ℚ), (∀ x ∈ audio, x = 0) →
      normalize_audio audio target = audio) ∧
    (∀ (audio : List ℚ) (target : ℚ),
      normalize_audio_checked audio target =
        some (normalize_audio audio target)) := by
  refine ⟨fun target => rfl, ?_, ?_⟩
  · intro audio target hz
    by_cases hlen : audio.length = 0
    · simp [normalize_audio, hlen]
    · have hp : peak_amplitude audio = 0 := peak_amplitude_of_zeros audio hz
      simp [normalize_audio, hlen, hp]
  · intro audio target
    by_cases hlen : audio.length = 0
    · simp [normalize_audio, normalize_audio_checked, hlen]
    · by_cases hpos : peak_amplitude audio > 0
      · have hne : peak_amplitude audio ≠ 0 := ne_of_gt hpos
        simp [normalize_audio, normalize_audio_checked, hlen, hpos,
          checked_div, hne]
      · simp [normalize_audio, normalize_audio_checked, hlen, hpos]

/-- Witness for C10: the empty buffer, the all-zero buffer `[0, 0]`, and
the checked run on `[1, 0]` all behave as the theorem states. -/
theorem C10_normalize_degenerate_witness :
    normalize_audio [] (9/10) = [] ∧
    normalize_audio [0, 0] (9/10) = [0, 0] ∧
    normalize_audio_checked [1, 0] (9/10) =
      some (normalize_audio [1, 0] (9/10)) :=
  ⟨C10_normalize_degenerate.1 (9/10),
   C10_normalize_degenerate.2.1 [0, 0] (9/10)
     (by intro x hx; rcases List.mem_cons.mp hx with h | h
         · exact h
         · simpa using h),
   C10_normalize_degenerate.2.2 [1, 0] (9/10)⟩

/-! ## Claim C8 -/

theorem power_total_nonneg (F : List (ℚ × ℚ)) : 0 ≤ power_total F := by
  apply sum_nonneg_of_mem
  intro x hx
  rcases List.mem_map.mp hx with ⟨z, _, rfl⟩
  unfold cabs_sq
  positivity

/-- Claim C8: the noise-level estimate is a pure function of the input
buffer — two runs on the same buffer give the same ratio, hence the same
adaptive branch — and the ratio it computes is exactly the claimed
formula: high-frequency power (normalized absolute frequency above 0.3)
over total power, 0 when the total power is 0, clamped to at most 1. -/
theorem C8_noise_level_deterministic (fftF : List ℚ → List (ℚ × ℚ))
    (audio : List ℚ) :
    estimate_noise_level fftF audio = estimate_noise_level fftF audio ∧
    adaptive_branch (estimate_noise_level fftF audio) =
      adaptive_branch (estimate_noise_level fftF audio) ∧
    estimate_noise_level fftF audio = noise_ratio_spec fftF audio := by
  refine ⟨rfl, rfl, ?_⟩
  simp only [estimate_noise_level, noise_ratio_spec]
  rcases lt_or_eq_of_le (power_total_nonneg (fftF audio)) with hpos | hzero
  · rw [if_pos hpos, if_neg (ne_of_gt hpos)]
  · rw [if_neg (by rw [← hzero]; exact lt_irrefl 0), if_pos hzero.symm]
    norm_num

/-! ## Claim C3 -/

/-- Claim C3: the adaptive method first runs the broadband band-pass
pre-filter; whenever that pre-filter succeeds with `audio_stage1`, the
noise ratio is computed from `audio_stage1` and the result is:
`audio_stage1` unchanged when the ratio is below 0.05; spectral
subtraction of `audio_stage1` when the ratio is in `[0.05, 0.15)`;
spectral subtraction followed by the noisereduce delegate when the ratio
is at least 0.15. -/
theorem C3_adaptive_branches (l : Libs) (audio : List ℚ) (sr : ℕ)
    (audio_stage1 : List ℚ)
    (h : bandpass_filter l audio sr none none 5 "broadband" =
      .ok audio_stage1) :
    (estimate_noise_level l.fft audio_stage1 < 1/20 →
      adaptive_denoise l audio sr = .ok audio_stage1) ∧
    (1/20 ≤ estimate_noise_level l.fft audio_stage1 →
      estimate_noise_level l.fft audio_stage1 < 3/20 →
      adaptive_denoise l audio sr =
        .ok (spectral_subtraction_method l audio_stage1 sr)) ∧
    (3/20 ≤ estimate_noise_level l.fft audio_stage1 →
      adaptive_denoise l audio sr =
        .ok (noisereduce_filter l
          (spectral_subtraction_method l audio_stage1 sr) sr)) := by
  unfold adaptive_denoise
  rw [h]
  simp only [Except.bind]
  refine ⟨fun h1 => ?_, fun h1 h2 => ?_, fun h1 => ?_⟩
  · rw [if_pos h1]
  · rw [if_neg (not_lt.mpr h1), if_pos h2]
  · rw [if_neg (not_lt.mpr (by linarith)),
      if_neg (not_lt.mpr (by linarith))]

/-- Witness for C3 with the concrete library instance: on `[1]` at 16000
Hz the broadband pre-filter succeeds with `[1]` (the low cutoff 50 lies in
`[45, 55]`, so no notch marker is prepended), the estimated ratio is 0,
and the adaptive method returns the pre-filtered signal unchanged. -/
theorem C3_adaptive_branches_witness :
    adaptive_denoise stub [1] 16000 = .ok [1] := by
  have hb : bandpass_filter stub [1] 16000 none none 5 "broadband" =
      .ok [1] := by
    simp only [bandpass_filter, Option.getD_none,
      show speech_freq_range "broadband" = (50, 12000) from rfl, stub]
    norm_num
  have he : estimate_noise_level stub.fft [1] = 0 := by
    simp only [estimate_noise_level, power_total, power_high, fftfreq_abs,
      cabs_sq, stub, List.enum]
    norm_num
  exact (C3_adaptive_branches stub [1] 16000 [1] hb).1
    (by rw [he]; norm_num)

/-! ## Claim C4 -/

theorem getD_mem_of_lt {α : Type} (l : List α) (j : ℕ) (h : j < l.length)
    (d : α) : l.getD j d ∈ l := by
  rw [List.getD_eq_getElem l d h]
  exact List.getElem_mem h

theorem clean_magnitude_getD (M profile : List (List ℚ)) (os fl : ℚ)
    (i : ℕ) (hiM : i < M.length) (hiP : i < profile.length) :
    (clean_magnitude M profile os fl).getD i [] =
      (M.getD i []).map
        (fun m => max (m - os * (profile.getD i []).headD 0) (fl * m)) := by
  unfold clean_magnitude
  rw [getD_map_lt _ _ i
      (by rw [List.length_zip]; exact lt_min hiM hiP) [] ([], []),
    getD_zip_lt M profile i hiM hiP ([], [])]

theorem combine_magnitude_phase_getD (M P : List (List ℚ)) (i : ℕ)
    (hiM : i < M.length) (hiP : i < P.length) :
    (combine_magnitude_phase M P).getD i [] =
      (M.getD i []).zipWith Polar.mk (P.getD i []) := by
  unfold combine_magnitude_phase
  rw [getD_zipWith_lt _ M P i hiM hiP [] [] []]

/-- Claim C4: spectral subtraction keeps the shape of the input frame, and
at every bin `i` and time frame `j` the output magnitude is exactly
`max(magnitude - over_subtraction * noise_profile[i], spectral_floor *
magnitude)`, hence at least `spectral_floor * magnitude` and non-negative,
while the phase of the entry is preserved unchanged.  The noise profile is
the `(bins, 1)` column produced by the estimator; its row `i` broadcasts
the single value `(noise_profile[i]).headD 0` along the time axis. -/
theorem C4_spectral_subtraction_pointwise (S : List (List Polar))
    (noise_profile : List (List ℚ)) (os fl : ℚ)
    (_hos : 0 ≤ os) (hfl : 0 ≤ fl)
    (hlen : noise_profile.length = S.length)
    (hmag : ∀ row ∈ S, ∀ p ∈ row, 0 ≤ p.mag)
    (i j : ℕ) (hi : i < S.length) (hj : j < (S.getD i []).length) :
    (spectral_subtraction S noise_profile os fl).length = S.length ∧
    ((spectral_subtraction S noise_profile os fl).getD i []).length =
      (S.getD i []).length ∧
    ((spectral_subtraction S noise_profile os fl).getD i []).getD j
        ⟨0, 0⟩ =
      ⟨max (((S.getD i []).getD j ⟨0, 0⟩).mag -
              os * (noise_profile.getD i []).headD 0)
           (fl * ((S.getD i []).getD j ⟨0, 0⟩).mag),
       ((S.getD i []).getD j ⟨0, 0⟩).phase⟩ ∧
    fl * ((S.getD i []).getD j ⟨0, 0⟩).mag ≤
      (((spectral_subtraction S noise_profile os fl).getD i []).getD j
        ⟨0, 0⟩).mag ∧
    0 ≤ (((spectral_subtraction S noise_profile os fl).getD i []).getD j
        ⟨0, 0⟩).mag ∧
    (((spectral_subtraction S noise_profile os fl).getD i []).getD j
        ⟨0, 0⟩).phase = ((S.getD i []).getD j ⟨0, 0⟩).phase := by
  have hMi : (S.map (fun row => row.map Polar.mag)).getD i [] =
      (S.getD i []).map Polar.mag :=
    getD_map_lt _ S i hi [] []
  have hPi : (S.map (fun row => row.map Polar.phase)).getD i [] =
      (S.getD i []).map Polar.phase :=
    getD_map_lt _ S i hi [] []
  have hMlen : (S.map (fun row => row.map Polar.mag)).length = S.length :=
    List.length_map _ _
  have hPlen : (S.map (fun row => row.map Polar.phase)).length =
      S.length := List.length_map _ _
  have hClen : (clean_magnitude (S.map (fun row => row.map Polar.mag))
      noise_profile os fl).length = S.length := by
    unfold clean_magnitude
    rw [List.length_map, List.length_zip, hMlen, hlen]
    exact Nat.min_self _
  have hout_row : (spectral_subtraction S noise_profile os fl).getD i [] =
      (((S.getD i []).map Polar.mag).map
        (fun m => max (m - os * (noise_profile.getD i []).headD 0)
          (fl * m))).zipWith Polar.mk
        ((S.getD i []).map Polar.phase) := by
    simp only [spectral_subtraction, get_magnitude_phase]
    rw [combine_magnitude_phase_getD _ _ i (by rw [hClen]; exact hi)
        (by rw [hPlen]; exact hi),
      clean_magnitude_getD _ _ _ _ i (by rw [hMlen]; exact hi)
        (by rw [hlen]; exact hi),
      hMi, hPi]
  have hlen_total : (spectral_subtraction S noise_profile os fl).length =
      S.length := by
    simp only [spectral_subtraction, get_magnitude_phase,
      combine_magnitude_phase]
    rw [List.length_zipWith]
    rw [show (clean_magnitude (S.map (fun row => row.map Polar.mag))
        noise_profile os fl).length = S.length from hClen, hPlen]
    exact Nat.min_self _
  have hlen_row :
      ((spectral_subtraction S noise_profile os fl).getD i []).length =
        (S.getD i []).length := by
    rw [hout_row, List.length_zipWith, List.length_map, List.length_map,
      List.length_map]
    exact Nat.min_self _
  have hel : ((spectral_subtraction S noise_profile os fl).getD i []).getD
      j ⟨0, 0⟩ =
      ⟨max (((S.getD i []).getD j ⟨0, 0⟩).mag -
          os * (noise_profile.getD i []).headD 0)
        (fl * ((S.getD i []).getD j ⟨0, 0⟩).mag),
       ((S.getD i []).getD j ⟨0, 0⟩).phase⟩ := by
    rw [hout_row,
      getD_zipWith_lt Polar.mk _ _ j
        (by rw [List.length_map, List.length_map]; exact hj)
        (by rw [List.length_map]; exact hj) ⟨0, 0⟩ 0 0,
      getD_map_lt _ _ j (by rw [List.length_map]; exact hj) 0 0,
      getD_map_lt Polar.mag (S.getD i []) j hj 0 ⟨0, 0⟩,
      getD_map_lt Polar.phase (S.getD i []) j hj 0 ⟨0, 0⟩]
  have hm : 0 ≤ ((S.getD i []).getD j ⟨0, 0⟩).mag :=
    hmag (S.getD i []) (getD_mem_of_lt S i hi [])
      ((S.getD i []).getD j ⟨0, 0⟩) (getD_mem_of_lt _ j hj ⟨0, 0⟩)
  refine ⟨hlen_total, hlen_row, hel, ?_, ?_, ?_⟩
  · rw [hel]
    exact le_max_right _ _
  · rw [hel]
    exact le_trans (mul_nonneg hfl hm) (le_max_right _ _)
  · rw [hel]

/-- Witness for C4 on the 2-by-1 frame `[[(2, 7)], [(3, 8)]]` with the
column profile `[[1], [1]]`, `over_subtraction = 1`, `spectral_floor =
1/10`, at bin 0, frame 0. -/
theorem C4_spectral_subtraction_pointwise_witness :
    (spectral_subtraction [[⟨2, 7⟩], [⟨3, 8⟩]] [[1], [1]] 1
      (1/10)).length = 2 ∧
    (((spectral_subtraction [[⟨2, 7⟩], [⟨3, 8⟩]] [[1], [1]] 1
      (1/10)).getD 0 []).getD 0 ⟨0, 0⟩) = ⟨1, 7⟩ := by
  have h := C4_spectral_subtraction_pointwise
    [[⟨2, 7⟩], [⟨3, 8⟩]] [[1], [1]] 1 (1/10) (by norm_num) (by norm_num)
    rfl
    (by intro row hrow p hp
        rcases List.mem_cons.mp hrow with h1 | h1
        · subst h1
          simp only [List.mem_singleton] at hp
          subst hp
          norm_num
        · rcases List.mem_cons.mp h1 with h2 | h2
          · subst h2
            simp only [List.mem_singleton] at hp
            subst hp
            norm_num
          · simp at h2)
    0 0 (by norm_num) (by norm_num)
  refine ⟨h.1, ?_⟩
  rw [h.2.2.1]
  norm_num

/-! ## Claim C5 -/

theorem signal_psd_est_length (M : List (List ℚ)) (v : List ℚ) :
    (signal_psd_est M v).length = min M.length v.length := by
  unfold signal_psd_est
  rw [List.length_map, List.length_zip]

theorem prior_snr_length (A : List (List ℚ)) (v : List ℚ) :
    (prior_snr A v).length = min A.length v.length := by
  unfold prior_snr
  rw [List.length_map, List.length_zip]

theorem wiener_weights_length (A : List (List ℚ)) :
    (wiener_weights A).length = A.length := by
  unfold wiener_weights
  exact List.length_map _ _

theorem wiener_noise_psd_length (S : List (List Polar)) (nf nF : ℕ) :
    (wiener_noise_psd S nf nF).length = S.length := by
  unfold wiener_noise_psd
  exact List.length_map _ _

theorem signal_psd_est_getD (M : List (List ℚ)) (v : List ℚ) (i : ℕ)
    (hiM : i < M.length) (hiv : i < v.length) :
    (signal_psd_est M v).getD i [] =
      (M.getD i []).map (fun m => max (m ^ 2 - v.getD i 0) 0) := by
  unfold signal_psd_est
  rw [getD_map_lt _ _ i (by rw [List.length_zip]; exact lt_min hiM hiv)
      [] ([], 0),
    getD_zip_lt M v i hiM hiv ([], 0)]

theorem prior_snr_getD (A : List (List ℚ)) (v : List ℚ) (i : ℕ)
    (hiA : i < A.length) (hiv : i < v.length) :
    (prior_snr A v).getD i [] =
      (A.getD i []).map (fun s => s / (v.getD i 0 + wiener_eps)) := by
  unfold prior_snr
  rw [getD_map_lt _ _ i (by rw [List.length_zip]; exact lt_min hiA hiv)
      [] ([], 0),
    getD_zip_lt A v i hiA hiv ([], 0)]

theorem wiener_weights_getD (A : List (List ℚ)) (i : ℕ)
    (hiA : i < A.length) :
    (wiener_weights A).getD i [] =
      (A.getD i []).map (fun p => p / (p + 1)) := by
  unfold wiener_weights
  rw [getD_map_lt _ A i hiA [] []]

theorem mat_mul_elem_getD (A B : List (List ℚ)) (i : ℕ)
    (hiA : i < A.length) (hiB : i < B.length) :
    (mat_mul_elem A B).getD i [] =
      (A.getD i []).zipWith (fun x y => x * y) (B.getD i []) := by
  unfold mat_mul_elem
  rw [getD_zipWith_lt _ A B i hiA hiB [] [] []]

theorem wiener_noise_psd_getD_nonneg (S : List (List Polar)) (nf nF i : ℕ) :
    0 ≤ (wiener_noise_psd S nf nF).getD i 0 := by
  by_cases h : i < S.length
  · unfold wiener_noise_psd
    rw [getD_map_lt _ S i h 0 []]
    apply div_nonneg
    · apply sum_nonneg_of_mem
      intro x hx
      rcases List.mem_map.mp hx with ⟨pp, _, rfl⟩
      positivity
    · exact Nat.cast_nonneg _
  · rw [List.getD_eq_default]
    rw [wiener_noise_psd_length]
    omega

theorem wiener_eps_pos : 0 < wiener_eps := by
  unfold wiener_eps
  norm_num

/-- Claim C5: in the Wiener filter, at every bin `i` and time frame `j`,
the estimated signal PSD is `max(magnitude^2 - noise_psd, 0)`, the prior
SNR is that estimate over `noise_psd + 1e-10`, the gain is
`prior_snr / (prior_snr + 1)` and lies in `[0, 1)`, and the spectral stage
multiplies the magnitude by the gain while preserving the phase. -/
theorem C5_wiener_gain (S : List (List Polar)) (sr hop : ℕ) (i j : ℕ)
    (hi : i < S.length) (hj : j < (S.getD i []).length) :
    ((signal_psd_est (S.map (fun row => row.map Polar.mag))
        (wiener_noise_psd S (sr / (2 * hop))
          (((S.map (fun row => row.map Polar.mag)).headD []).length))).getD
        i []).getD j 0 =
      max ((((S.getD i []).getD j ⟨0, 0⟩).mag) ^ 2 -
        (wiener_noise_psd S (sr / (2 * hop))
          (((S.map (fun row => row.map Polar.mag)).headD []).length)).getD
          i 0) 0 ∧
    ((prior_snr (signal_psd_est (S.map (fun row => row.map Polar.mag))
        (wiener_noise_psd S (sr / (2 * hop))
          (((S.map (fun row => row.map Polar.mag)).headD []).length)))
        (wiener_noise_psd S (sr / (2 * hop))
          (((S.map (fun row => row.map Polar.mag)).headD []).length))).getD
        i []).getD j 0 =
      ((signal_psd_est (S.map (fun row => row.map Polar.mag))
        (wiener_noise_psd S (sr / (2 * hop))
          (((S.map (fun row => row.map Polar.mag)).headD []).length))).getD
        i []).getD j 0 /
      ((wiener_noise_psd S (sr / (2 * hop))
          (((S.map (fun row => row.map Polar.mag)).headD []).length)).getD
          i 0 + wiener_eps) ∧
    ((wiener_weights (prior_snr
        (signal_psd_est (S.map (fun row => row.map Polar.mag))
          (wiener_noise_psd S (sr / (2 * hop))
            (((S.map (fun row => row.map Polar.mag)).headD []).length)))
        (wiener_noise_psd S (sr / (2 * hop))
          (((S.map (fun row => row.map Polar.mag)).headD []).length)))).getD
        i []).getD j 0 =
      ((prior_snr (signal_psd_est (S.map (fun row => row.map Polar.mag))
          (wiener_noise_psd S (sr / (2 * hop))
            (((S.map (fun row => row.map Polar.mag)).headD []).length)))
          (wiener_noise_psd S (sr / (2 * hop))
            (((S.map (fun row => row.map Polar.mag)).headD []).length))).getD
          i []).getD j 0 /
      (((prior_snr (signal_psd_est (S.map (fun row => row.map Polar.mag))
          (wiener_noise_psd S (sr / (2 * hop))
            (((S.map (fun row => row.map Polar.mag)).headD []).length)))
          (wiener_noise_psd S (sr / (2 * hop))
            (((S.map (fun row => row.map Polar.mag)).headD []).length))).getD
          i []).getD j 0 + 1) ∧
    0 ≤ ((wiener_weights (prior_snr
        (signal_psd_est (S.map (fun row => row.map Polar.mag))
          (wiener_noise_psd S (sr / (2 * hop))
            (((S.map (fun row => row.map Polar.mag)).headD []).length)))
        (wiener_noise_psd S (sr / (2 * hop))
          (((S.map (fun row => row.map Polar.mag)).headD []).length)))).getD
        i []).getD j 0 ∧
    ((wiener_weights (prior_snr
        (signal_psd_est (S.map (fun row => row.map Polar.mag))
          (wiener_noise_psd S (sr / (2 * hop))
            (((S.map (fun row => row.map Polar.mag)).headD []).length)))
        (wiener_noise_psd S (sr / (2 * hop))
          (((S.map (fun row => row.map Polar.mag)).headD []).length)))).getD
        i []).getD j 0 < 1 ∧
    ((wiener_clean_frame S sr hop).getD i []).getD j ⟨0, 0⟩ =
      ⟨((S.getD i []).getD j ⟨0, 0⟩).mag *
        ((wiener_weights (prior_snr
          (signal_psd_est (S.map (fun row => row.map Polar.mag))
            (wiener_noise_psd S (sr / (2 * hop))
              (((S.map (fun row => row.map Polar.mag)).headD []).length)))
          (wiener_noise_psd S (sr / (2 * hop))
            (((S.map (fun row => row.map Polar.mag)).headD []).length)))).getD
          i []).getD j 0,
       ((S.getD i []).getD j ⟨0, 0⟩).phase⟩ := by
  set M := S.map (fun row => row.map Polar.mag) with hM
  set psd := wiener_noise_psd S (sr / (2 * hop)) ((M.headD []).length)
    with hpsd
  have hMlen : M.length = S.length := List.length_map _ _
  have hpsdlen : psd.length = S.length := wiener_noise_psd_length _ _ _
  have hMi : M.getD i [] = (S.getD i []).map Polar.mag :=
    getD_map_lt _ S i hi [] []
  have hMrow : (M.getD i []).length = (S.getD i []).length := by
    rw [hMi, List.length_map]
  have hspelen : (signal_psd_est M psd).length = S.length := by
    rw [signal_psd_est_length, hMlen, hpsdlen, Nat.min_self]
  have hspe_row : (signal_psd_est M psd).getD i [] =
      (M.getD i []).map (fun m => max (m ^ 2 - psd.getD i 0) 0) :=
    signal_psd_est_getD M psd i (by rw [hMlen]; exact hi)
      (by rw [hpsdlen]; exact hi)
  have hspe_rowlen : ((signal_psd_est M psd).getD i []).length =
      (S.getD i []).length := by
    rw [hspe_row, List.length_map, hMrow]
  have ha : ((signal_psd_est M psd).getD i []).getD j 0 =
      max ((((S.getD i []).getD j ⟨0, 0⟩).mag) ^ 2 - psd.getD i 0) 0 := by
    rw [hspe_row,
      getD_map_lt _ _ j (by rw [hMrow]; exact hj) 0 0, hMi,
      getD_map_lt Polar.mag (S.getD i []) j hj 0 ⟨0, 0⟩]
  have hprlen : (prior_snr (signal_psd_est M psd) psd).length =
      S.length := by
    rw [prior_snr_length, hspelen, hpsdlen, Nat.min_self]
  have hpr_row : (prior_snr (signal_psd_est M psd) psd).getD i [] =
      ((signal_psd_est M psd).getD i []).map
        (fun s => s / (psd.getD i 0 + wiener_eps)) :=
    prior_snr_getD _ psd i (by rw [hspelen]; exact hi)
      (by rw [hpsdlen]; exact hi)
  have hpr_rowlen : ((prior_snr (signal_psd_est M psd) psd).getD
      i []).length = (S.getD i []).length := by
    rw [hpr_row, List.length_map, hspe_rowlen]
  have hb : ((prior_snr (signal_psd_est M psd) psd).getD i []).getD j 0 =
      ((signal_psd_est M psd).getD i []).getD j 0 /
        (psd.getD i 0 + wiener_eps) := by
    rw [hpr_row, getD_map_lt _ _ j (by rw [hspe_rowlen]; exact hj) 0 0]
  have hWlen : (wiener_weights (prior_snr (signal_psd_est M psd)
      psd)).length = S.length := by
    rw [wiener_weights_length, hprlen]
  have hW_row : (wiener_weights (prior_snr (signal_psd_est M psd)
      psd)).getD i [] =
      ((prior_snr (signal_psd_est M psd) psd).getD i []).map
        (fun p => p / (p + 1)) :=
    wiener_weights_getD _ i (by rw [hprlen]; exact hi)
  have hW_rowlen : ((wiener_weights (prior_snr (signal_psd_est M psd)
      psd)).getD i []).length = (S.getD i []).length := by
    rw [hW_row, List.length_map, hpr_rowlen]
  have hc : ((wiener_weights (prior_snr (signal_psd_est M psd) psd)).getD
      i []).getD j 0 =
      ((prior_snr (signal_psd_est M psd) psd).getD i []).getD j 0 /
        (((prior_snr (signal_psd_est M psd) psd).getD i []).getD j 0 +
          1) := by
    rw [hW_row, getD_map_lt _ _ j (by rw [hpr_rowlen]; exact hj) 0 0]
  have hp_nonneg :
      0 ≤ ((prior_snr (signal_psd_est M psd) psd).getD i []).getD j 0 := by
    rw [hb, ha]
    apply div_nonneg (le_max_right _ _)
    have := wiener_noise_psd_getD_nonneg S (sr / (2 * hop))
      ((M.headD []).length) i
    have := wiener_eps_pos
    rw [← hpsd] at *
    linarith
  have hd1 : 0 ≤ ((wiener_weights (prior_snr (signal_psd_est M psd)
      psd)).getD i []).getD j 0 := by
    rw [hc]
    exact div_nonneg hp_nonneg (by linarith)
  have hd2 : ((wiener_weights (prior_snr (signal_psd_est M psd)
      psd)).getD i []).getD j 0 < 1 := by
    rw [hc]
    exact (div_lt_one (by linarith)).mpr (lt_add_one _)
  have hPi : (S.map (fun row => row.map Polar.phase)).getD i [] =
      (S.getD i []).map Polar.phase := getD_map_lt _ S i hi [] []
  have hmmlen : (mat_mul_elem M (wiener_weights (prior_snr
      (signal_psd_est M psd) psd))).length = S.length := by
    unfold mat_mul_elem
    rw [List.length_zipWith, hMlen, hWlen, Nat.min_self]
  have hmm_row : (mat_mul_elem M (wiener_weights (prior_snr
      (signal_psd_est M psd) psd))).getD i [] =
      (M.getD i []).zipWith (fun x y => x * y)
        ((wiener_weights (prior_snr (signal_psd_est M psd) psd)).getD
          i []) :=
    mat_mul_elem_getD _ _ i (by rw [hMlen]; exact hi)
      (by rw [hWlen]; exact hi)
  have he : ((wiener_clean_frame S sr hop).getD i []).getD j ⟨0, 0⟩ =
      ⟨((S.getD i []).getD j ⟨0, 0⟩).mag *
        ((wiener_weights (prior_snr (signal_psd_est M psd) psd)).getD
          i []).getD j 0,
       ((S.getD i []).getD j ⟨0, 0⟩).phase⟩ := by
    have hframe : wiener_clean_frame S sr hop =
        combine_magnitude_phase
          (mat_mul_elem M (wiener_weights (prior_snr
            (signal_psd_est M psd) psd)))
          (S.map (fun row => row.map Polar.phase)) := by
      simp only [wiener_clean_frame, get_magnitude_phase, hM, hpsd]
    rw [hframe,
      combine_magnitude_phase_getD _ _ i (by rw [hmmlen]; exact hi)
        (by rw [List.length_map]; exact hi),
      hmm_row, hPi,
      getD_zipWith_lt Polar.mk _ _ j
        (by rw [List.length_zipWith, hMrow, hW_rowlen, Nat.min_self]
            exact hj)
        (by rw [List.length_map]; exact hj) ⟨0, 0⟩ 0 0,
      getD_zipWith_lt _ _ _ j (by rw [hMrow]; exact hj)
        (by rw [hW_rowlen]; exact hj) 0 0 0,
      hMi,
      getD_map_lt Polar.mag (S.getD i []) j hj 0 ⟨0, 0⟩,
      getD_map_lt Polar.phase (S.getD i []) j hj 0 ⟨0, 0⟩]
  exact ⟨ha, hb, hc, hd1, hd2, he⟩

/-- Witness for C5 on the one-bin, one-frame spectrogram `[[(2, 5)]]` at
`sr = 1024`, `hop = 512`: the noise PSD equals the only squared magnitude,
so the gain is 0 and the cleaned entry is `(0, 5)` — magnitude scaled by
the gain, phase preserved. -/
theorem C5_wiener_gain_witness :
    ((wiener_weights (prior_snr
        (signal_psd_est
          ([[⟨2, 5⟩]].map (fun row => row.map Polar.mag))
          (wiener_noise_psd [[⟨2, 5⟩]] (1024 / (2 * 512))
            ((([[⟨2, 5⟩]].map (fun row =>
              row.map Polar.mag)).headD []).length)))
        (wiener_noise_psd [[⟨2, 5⟩]] (1024 / (2 * 512))
          ((([[⟨2, 5⟩]].map (fun row =>
            row.map Polar.mag)).headD []).length)))).getD 0 []).getD 0 0 =
      0 ∧
    ((wiener_clean_frame [[⟨2, 5⟩]] 1024 512).getD 0 []).getD 0 ⟨0, 0⟩ =
      ⟨0, 5⟩ := by
  obtain ⟨ha, hb, hc, hd1, hd2, he⟩ :=
    C5_wiener_gain [[⟨2, 5⟩]] 1024 512 0 0 (by norm_num) (by norm_num)
  have hg : ((wiener_weights (prior_snr
      (signal_psd_est
        ([[⟨2, 5⟩]].map (fun row => row.map Polar.mag))
        (wiener_noise_psd [[⟨2, 5⟩]] (1024 / (2 * 512))
          ((([[⟨2, 5⟩]].map (fun row =>
            row.map Polar.mag)).headD []).length)))
      (wiener_noise_psd [[⟨2, 5⟩]] (1024 / (2 * 512))
        ((([[⟨2, 5⟩]].map (fun row =>
          row.map Polar.mag)).headD []).length)))).getD 0 []).getD 0 0 =
      0 := by
    rw [hc, hb, ha]
    norm_num [wiener_noise_psd, wiener_eps, List.getD]
  refine ⟨hg, ?_⟩
  rw [he, hg]
  norm_num [List.getD]

/-! ## Claim C6 -/

/-- Counterexample to claim C6 as stated.  The claim says the estimator
returns a 1-D array of length `fft_size/2 + 1`; with `n_fft = 2` that
would be numpy shape `[2]`.  But the source averages with
`np.mean(..., axis=1, keepdims=True)`, so on a concrete two-sample buffer
(with a spectral transform honouring the `n_fft/2 + 1`-row contract) the
returned array has shape `[2, 1]` — a 2-D column, not a 1-D vector. -/
theorem C6_counterexample :
    matShape (estimate_noise_profile
      (fun n _ _ => (List.range (n / 2 + 1)).map (fun _ => [⟨1, 0⟩]))
      [1, 1] 4 (1/2) 2 1) = [2, 1] ∧
    ([2, 1] : List ℕ) ≠ [2 / 2 + 1] := by
  exact ⟨rfl, by simp⟩

/-- Claim C6 amended: assuming the spectral transform returns
`n_fft/2 + 1` frequency-bin rows of non-negative magnitudes, the estimator
takes the leading `int(noise_duration * sr)` samples (the whole buffer
when it is not longer than that), transforms that segment, and returns the
per-bin averages of the magnitude across time frames as a 2-D column of
numpy shape `(n_fft/2 + 1, 1)` — one non-negative entry per frequency
bin — rather than a 1-D array. -/
theorem C6_noise_profile_column (stftF : ℕ → ℕ → List ℚ → List (List Polar))
    (audio : List ℚ) (sr : ℕ) (noise_duration : ℚ) (n_fft hop : ℕ)
    (hbins : ∀ a : List ℚ, (stftF n_fft hop a).length = n_fft / 2 + 1)
    (hmag : ∀ a : List ℚ, ∀ row ∈ stftF n_fft hop a, ∀ p ∈ row,
      0 ≤ p.mag) :
    estimate_noise_profile stftF audio sr noise_duration n_fft hop =
      (stftF n_fft hop
        (if (⌊noise_duration * (sr : ℚ)⌋).toNat ≥ audio.length then audio
         else audio.take (⌊noise_duration * (sr : ℚ)⌋).toNat)).map
        (fun row => [((row.map Polar.mag).sum) / (row.length : ℚ)]) ∧
    matShape
      (estimate_noise_profile stftF audio sr noise_duration n_fft hop) =
      [n_fft / 2 + 1, 1] ∧
    (estimate_noise_profile stftF audio sr noise_duration
      n_fft hop).length = n_fft / 2 + 1 ∧
    (∀ r ∈ estimate_noise_profile stftF audio sr noise_duration n_fft hop,
      ∀ x ∈ r, 0 ≤ x) := by
  have hdef : estimate_noise_profile stftF audio sr noise_duration n_fft
      hop =
      (stftF n_fft hop
        (if (⌊noise_duration * (sr : ℚ)⌋).toNat ≥ audio.length then audio
         else audio.take (⌊noise_duration * (sr : ℚ)⌋).toNat)).map
        (fun row => [((row.map Polar.mag).sum) / (row.length : ℚ)]) := rfl
  have hlen : (estimate_noise_profile stftF audio sr noise_duration n_fft
      hop).length = n_fft / 2 + 1 := by
    rw [hdef, List.length_map]
    exact hbins _
  refine ⟨hdef, ?_, hlen, ?_⟩
  · unfold matShape
    rw [hlen]
    have hne : estimate_noise_profile stftF audio sr noise_duration n_fft
        hop ≠ [] := by
      intro hcon
      rw [hcon] at hlen
      simp at hlen
    rcases hP : estimate_noise_profile stftF audio sr noise_duration n_fft
        hop with _ | ⟨a, t⟩
    · exact absurd hP hne
    · have ha : a ∈ estimate_noise_profile stftF audio sr noise_duration
          n_fft hop := by
        rw [hP]
        exact List.mem_cons_self a t
      rw [hdef] at ha
      rcases List.mem_map.mp ha with ⟨row, _, hrow⟩
      simp only [List.headD_cons, ← hrow, List.length_singleton]
  · intro r hr x hx
    rw [hdef] at hr
    rcases List.mem_map.mp hr with ⟨row, hrowmem, hrow⟩
    rw [← hrow] at hx
    rcases List.mem_singleton.mp hx with rfl
    apply div_nonneg
    · apply sum_nonneg_of_mem
      intro y hy
      rcases List.mem_map.mp hy with ⟨p, hp, rfl⟩
      exact hmag _ row hrowmem p hp
    · exact Nat.cast_nonneg _

/-- Witness for the amended C6: the concrete transform returning two
constant-magnitude bins yields the column `[[1], [1]]` of shape `[2, 1]`
on the buffer `[1, 1]`. -/
theorem C6_noise_profile_column_witness :
    matShape (estimate_noise_profile
      (fun n _ _ => (List.range (n / 2 + 1)).map (fun _ => [⟨1, 0⟩]))
      [1, 1] 4 (1/2) 2 1) = [2, 1] ∧
    (estimate_noise_profile
      (fun n _ _ => (List.range (n / 2 + 1)).map (fun _ => [⟨1, 0⟩]))
      [1, 1] 4 (1/2) 2 1).length = 2 := by
  have h := C6_noise_profile_column
    (fun n _ _ => (List.range (n / 2 + 1)).map (fun _ => [⟨1, 0⟩]))
    [1, 1] 4 (1/2) 2 1
    (by intro a; simp)
    (by intro a row hrow p hp
        rcases List.mem_map.mp hrow with ⟨k, _, rfl⟩
        rcases List.mem_singleton.mp hp with rfl
        norm_num)
  exact ⟨h.2.1, h.2.2.1⟩

/-! ## Claim C9 -/

/-- Claim C9: on the sample-array branch of `denoise`, when the caller's
sample rate differs from the configured target rate, the call is identical
to a call on the resampled buffer at the target rate (the input is
resampled before any method dispatch happens), and every successful
result carries `sample_rate = target_sr`, never the caller's rate. -/
theorem C9_resample_to_target (l : Libs) (target_sr : ℕ)
    (default_method : String) (audio : List ℚ) (sr : ℕ)
    (method0 : Option String) (r : DenoiseResult)
    (hne : sr ≠ target_sr) :
    denoise l target_sr default_method audio (some sr) method0 =
      denoise l target_sr default_method
        (resample_audio l audio sr target_sr) (some target_sr) method0 ∧
    (denoise l target_sr default_method audio (some sr) method0 = .ok r →
      r.sample_rate = target_sr ∧ r.sample_rate ≠ sr) := by
  constructor
  · simp [denoise, hne]
  · intro h
    simp only [denoise, Option.getD_some, hne, ite_not, if_neg hne,
      if_false, ite_false] at h
    rcases hd : dispatch_method l (method0.getD default_method)
        (resample_audio l audio sr target_sr) target_sr with e | d
    · rw [hd] at h
      simp [Except.bind] at h
    · rw [hd] at h
      simp only [Except.bind, Except.ok.injEq] at h
      rw [← h]
      exact ⟨rfl, Ne.symm hne⟩

/-- Witness for C9: `[1]` declared at 8000 Hz against target 16000 with
`method="wiener"` succeeds, and the result's `sample_rate` is 16000, not
8000. -/
theorem C9_resample_to_target_witness :
    denoise stub 16000 "adaptive" [1] (some 8000) (some "wiener") =
      .ok { audio := [], sample_rate := 16000, method := "wiener",
            original_shape := 1, denoised_shape := 0 } ∧
    (16000 : ℕ) ≠ 8000 := by
  have hr : denoise stub 16000 "adaptive" [1] (some 8000)
      (some "wiener") =
      .ok { audio := [], sample_rate := 16000, method := "wiener",
            original_shape := 1, denoised_shape := 0 } := rfl
  have h := (C9_resample_to_target stub 16000 "adaptive" [1] 8000
      (some "wiener")
      { audio := [], sample_rate := 16000, method := "wiener",
        original_shape := 1, denoised_shape := 0 }
      (by norm_num)).2 hr
  exact ⟨hr, h.2⟩

end VoiceDenoiser
